import Mathlib

/-!
Verification of `support/certs/tls.go` (certificate issuance and key-pair validation).

This file gives a shallow embedding, in Lean 4, of the certificate-management
core of the repository (`src/support/certs/tls.go`): RSA key material,
self-signed and CA-signed X.509 certificate construction, subject-key-identifier
computation (SHA-1 over the ASN.1 encoding of a public key), the PEM codec, and
`ValidateKeyPair`.

Modelling conventions:
* Go byte slices and Go strings are modelled as `List Nat` (a Go string is an
  immutable byte sequence); a value is a proper byte when it is `< 256`.
* `time.Time` and `time.Duration` are modelled as `Int` (nanoseconds), exactly
  as Go represents durations; `time.Now()` is passed explicitly as a `now`
  parameter, and the random serial drawn by the factories is likewise passed
  explicitly (the source draws it from `crypto/rand`).
* The DER produced by the Go standard library (`encoding/asn1`, `crypto/x509`)
  is modelled by an executable tag-length-value encoder faithful to DER framing
  (definite lengths, short and long form, minimal big-endian base-256 integers
  with a leading zero byte when the high bit is set), paired with executable
  parsers.  For `asn1.Marshal(rsaPublicKey{N, E})` this is exactly the DER the
  library produces; for whole certificates/CSRs the field layout inside the
  outer SEQUENCE is a field-preserving model of the x509 wire format (the
  claims under study depend on which fields round-trip, not on their X.509
  tag numbers).
* SHA-1 (`crypto/sha1`) is implemented in full (padding, message schedule,
  80 rounds, mod 2^32 arithmetic).
* Base64 and the PEM armor (`encoding/pem`) are implemented executably; the
  model emits the base64 body as a single line (Go wraps at 64 columns and
  strips the line breaks again when decoding, which is invisible to every
  property studied here).
* A Go function that can `panic` (the unchecked type assertion in
  `signedCertificate`) returns a `GoResult` with a dedicated `panics` outcome.
-/

namespace Certs

/-- Go byte slices (and Go strings, which are byte sequences) as lists of `Nat`. -/
abbrev Bytes := List Nat

/-- Big-endian interpretation of a byte list as a natural number. -/
def beToNat (bs : Bytes) : Nat := bs.foldl (fun acc b => acc * 256 + b) 0

/-- Fuel-driven worker for `natBEBytes` (structural recursion so that the
kernel can evaluate it; the fuel is always sufficient at the call site). -/
def natBEBytesAux : Nat → Nat → Bytes
  | _, 0 => []
  | 0, _ + 1 => []
  | fuel + 1, n + 1 => natBEBytesAux fuel ((n + 1) / 256) ++ [(n + 1) % 256]

/-- Minimal big-endian base-256 representation of a natural number (empty for 0). -/
def natBEBytes (n : Nat) : Bytes := natBEBytesAux n n

theorem natBEBytesAux_fuel : ∀ fuel fuel' n, n ≤ fuel → n ≤ fuel' →
    natBEBytesAux fuel n = natBEBytesAux fuel' n := by
  intro fuel
  induction fuel with
  | zero =>
    intro fuel' n hn _
    have : n = 0 := by omega
    subst this
    cases fuel' <;> rfl
  | succ f ih =>
    intro fuel' n hn hn'
    match n with
    | 0 => cases fuel' <;> rfl
    | m + 1 =>
      match fuel' with
      | f' + 1 =>
        show natBEBytesAux f ((m + 1) / 256) ++ _ = natBEBytesAux f' ((m + 1) / 256) ++ _
        rw [ih f' ((m + 1) / 256) (by omega) (by omega)]

theorem natBEBytes_succ (m : Nat) :
    natBEBytes (m + 1) = natBEBytes ((m + 1) / 256) ++ [(m + 1) % 256] := by
  show natBEBytesAux m ((m + 1) / 256) ++ _ = natBEBytesAux ((m + 1) / 256) ((m + 1) / 256) ++ _
  rw [natBEBytesAux_fuel m ((m + 1) / 256) ((m + 1) / 256) (by omega) (le_refl _)]

theorem beToNat_append_singleton (bs : Bytes) (b : Nat) :
    beToNat (bs ++ [b]) = beToNat bs * 256 + b := by
  simp [beToNat, List.foldl_append]

theorem beToNat_natBEBytes : ∀ n, beToNat (natBEBytes n) = n := by
  intro n
  induction n using Nat.strong_induction_on with
  | _ n ih =>
    match n with
    | 0 => simp [natBEBytes, natBEBytesAux, beToNat]
    | m + 1 =>
      rw [natBEBytes_succ, beToNat_append_singleton,
        ih ((m + 1) / 256) (Nat.div_lt_self (Nat.succ_pos m) (by omega))]
      omega

theorem natBEBytes_lt : ∀ n, ∀ b ∈ natBEBytes n, b < 256 := by
  intro n
  induction n using Nat.strong_induction_on with
  | _ n ih =>
    match n with
    | 0 => simp [natBEBytes, natBEBytesAux]
    | m + 1 =>
      rw [natBEBytes_succ]
      intro b hb
      rcases List.mem_append.mp hb with h | h
      · exact ih ((m + 1) / 256) (Nat.div_lt_self (Nat.succ_pos m) (by omega)) b h
      · simp only [List.mem_singleton] at h
        omega

theorem natBEBytes_ne_nil {n : Nat} (h : 0 < n) : natBEBytes n ≠ [] := by
  match n, h with
  | m + 1, _ =>
    rw [natBEBytes_succ]
    simp

/-- DER definite-length header: short form below 128, long form otherwise. -/
def encodeLen (len : Nat) : Bytes :=
  if len < 128 then [len]
  else (128 + (natBEBytes len).length) :: natBEBytes len

/-- Parse a DER definite-length header, returning the length and the rest. -/
def parseLen : Bytes → Option (Nat × Bytes)
  | [] => none
  | b :: rest =>
    if b < 128 then some (b, rest)
    else
      let k := b - 128
      if rest.length < k then none
      else some (beToNat (rest.take k), rest.drop k)

theorem parseLen_encodeLen (len : Nat) (rest : Bytes) :
    parseLen (encodeLen len ++ rest) = some (len, rest) := by
  by_cases h : len < 128
  · simp [encodeLen, parseLen, h]
  · have hpos : 0 < len := by omega
    have hne : natBEBytes len ≠ [] := natBEBytes_ne_nil hpos
    have hlen : 0 < (natBEBytes len).length := List.length_pos.mpr hne
    simp only [encodeLen, if_neg h, List.cons_append, parseLen]
    have hge : ¬ (128 + (natBEBytes len).length < 128) := by omega
    rw [if_neg hge]
    have hk : 128 + (natBEBytes len).length - 128 = (natBEBytes len).length := by omega
    simp only [hk]
    have hlen2 : ¬ ((natBEBytes len ++ rest).length < (natBEBytes len).length) := by
      simp [List.length_append]
    rw [if_neg hlen2]
    rw [List.take_left, List.drop_left, beToNat_natBEBytes]

/-- DER tag-length-value framing. -/
def tlv (tag : Nat) (content : Bytes) : Bytes :=
  tag :: (encodeLen content.length ++ content)

/-- Parse one TLV element with the expected tag; returns content and rest. -/
def parseTLV (tag : Nat) : Bytes → Option (Bytes × Bytes)
  | [] => none
  | b :: rest =>
    if b = tag then
      match parseLen rest with
      | none => none
      | some (len, r) =>
        if r.length < len then none
        else some (r.take len, r.drop len)
    else none

theorem parseTLV_tlv (tag : Nat) (c rest : Bytes) :
    parseTLV tag (tlv tag c ++ rest) = some (c, rest) := by
  simp only [tlv, List.cons_append, List.append_assoc]
  rw [parseTLV, if_pos rfl, parseLen_encodeLen]
  have hlen : ¬ ((c ++ rest).length < c.length) := by simp [List.length_append]
  simp [hlen, List.take_left, List.drop_left]

theorem tlv_ne_nil (tag : Nat) (c : Bytes) : tlv tag c ≠ [] := by
  simp [tlv]

/-- DER INTEGER content for a nonnegative integer: minimal big-endian bytes,
with a leading zero byte when the high bit of the first byte is set
(exactly what `encoding/asn1` emits for a nonnegative `big.Int`). -/
def natContent (n : Nat) : Bytes :=
  if n = 0 then [0]
  else
    let bs := natBEBytes n
    if 128 ≤ bs.headD 0 then 0 :: bs else bs

/-- Interpretation of DER INTEGER content as a natural number (the parser
side strips nothing: a leading zero byte does not change the value). -/
def contentNat (c : Bytes) : Nat := beToNat c

theorem beToNat_cons_zero (bs : Bytes) : beToNat (0 :: bs) = beToNat bs := by
  simp [beToNat]

theorem contentNat_natContent (n : Nat) : contentNat (natContent n) = n := by
  by_cases h : n = 0
  · simp [natContent, contentNat, h, beToNat]
  · simp only [natContent, if_neg h, contentNat]
    by_cases h2 : 128 ≤ (natBEBytes n).headD 0
    · rw [if_pos h2, beToNat_cons_zero, beToNat_natBEBytes]
    · rw [if_neg h2, beToNat_natBEBytes]

/-- DER INTEGER (tag 2) encoding of a natural number. -/
def derNat (n : Nat) : Bytes := tlv 2 (natContent n)

/-- Parse a DER INTEGER as a natural number, returning the rest. -/
def parseNat (bs : Bytes) : Option (Nat × Bytes) :=
  match parseTLV 2 bs with
  | none => none
  | some (c, r) => some (contentNat c, r)

theorem parseNat_derNat (n : Nat) (rest : Bytes) :
    parseNat (derNat n ++ rest) = some (n, rest) := by
  simp [parseNat, derNat, parseTLV_tlv, contentNat_natContent]

theorem derNat_ne_nil (n : Nat) : derNat n ≠ [] := tlv_ne_nil _ _

/-- An OCTET-STRING-style raw byte field (tag 4); used for Go strings and IPs. -/
def derBytes (bs : Bytes) : Bytes := tlv 4 bs

/-- Parse a raw byte field. -/
def parseBytes (bs : Bytes) : Option (Bytes × Bytes) := parseTLV 4 bs

theorem parseBytes_derBytes (s rest : Bytes) :
    parseBytes (derBytes s ++ rest) = some (s, rest) := parseTLV_tlv 4 s rest

theorem derBytes_ne_nil (s : Bytes) : derBytes s ≠ [] := tlv_ne_nil _ _

/-- DER BOOLEAN (tag 1): `0xFF` for true, `0x00` for false. -/
def derBool (b : Bool) : Bytes := tlv 1 [if b then 255 else 0]

/-- Parse a DER BOOLEAN. -/
def parseBool (bs : Bytes) : Option (Bool × Bytes) :=
  match parseTLV 1 bs with
  | some ([255], r) => some (true, r)
  | some ([0], r) => some (false, r)
  | _ => none

theorem parseBool_derBool (b : Bool) (rest : Bytes) :
    parseBool (derBool b ++ rest) = some (b, rest) := by
  cases b <;> simp [parseBool, derBool, parseTLV_tlv]

/-- Signed time value (model of an X.509 time): a sign byte followed by the
magnitude's INTEGER content. -/
def derTime (t : Int) : Bytes :=
  tlv 24 (if t < 0 then 1 :: natContent (-t).toNat else 0 :: natContent t.toNat)

/-- Parse a signed time value. -/
def parseTime (bs : Bytes) : Option (Int × Bytes) :=
  match parseTLV 24 bs with
  | some (0 :: c, r) => some ((contentNat c : Int), r)
  | some (1 :: c, r) => some (-(contentNat c : Int), r)
  | _ => none

theorem parseTime_derTime (t : Int) (rest : Bytes) :
    parseTime (derTime t ++ rest) = some (t, rest) := by
  by_cases h : t < 0
  · simp only [derTime, if_pos h, parseTime, parseTLV_tlv, contentNat_natContent]
    have : ((-t).toNat : Int) = -t := Int.toNat_of_nonneg (by omega)
    rw [this]
    simp
  · simp only [derTime, if_neg h, parseTime, parseTLV_tlv, contentNat_natContent]
    have : (t.toNat : Int) = t := Int.toNat_of_nonneg (by omega)
    rw [this]

/-- Sequentially parse elements with `p` until the input is exhausted,
consuming fuel once per element. -/
def parseSeq (p : Bytes → Option (α × Bytes)) : Nat → Bytes → Option (List α)
  | _, [] => some []
  | 0, _ :: _ => none
  | fuel + 1, b :: bs =>
    match p (b :: bs) with
    | none => none
    | some (a, r) =>
      match parseSeq p fuel r with
      | none => none
      | some as' => some (a :: as')

/-- SEQUENCE-OF (tag 48) of a per-element encoder. -/
def derList (enc : α → Bytes) (xs : List α) : Bytes :=
  tlv 48 (xs.map enc).flatten

/-- Parse a SEQUENCE-OF with the per-element parser `p`. -/
def parseListWith (p : Bytes → Option (α × Bytes)) (bs : Bytes) :
    Option (List α × Bytes) :=
  match parseTLV 48 bs with
  | none => none
  | some (c, r) =>
    match parseSeq p c.length c with
    | none => none
    | some xs => some (xs, r)

theorem parseSeq_join (p : Bytes → Option (α × Bytes)) (enc : α → Bytes)
    (henc : ∀ x r, p (enc x ++ r) = some (x, r))
    (hne : ∀ x, enc x ≠ []) :
    ∀ (xs : List α) (fuel : Nat), xs.length ≤ fuel →
      parseSeq p fuel (xs.map enc).flatten = some xs := by
  intro xs
  induction xs with
  | nil => intro fuel _; cases fuel <;> simp [parseSeq]
  | cons x xs ih =>
    intro fuel hfuel
    cases fuel with
    | zero => exact absurd hfuel (by simp)
    | succ f =>
      have hx : enc x ≠ [] := hne x
      simp only [List.map_cons, List.flatten_cons]
      match hcons : enc x with
      | [] => exact absurd hcons hx
      | b :: bs =>
        have h1 : (b :: bs) ++ (xs.map enc).flatten = b :: (bs ++ (xs.map enc).flatten) := rfl
        rw [h1]
        have h2 := henc x (xs.map enc).flatten
        rw [hcons] at h2
        rw [h1] at h2
        simp only [parseSeq, h2]
        rw [ih f (by simp only [List.length_cons] at hfuel; omega)]

theorem length_le_join_length (enc : α → Bytes) (hne : ∀ x, enc x ≠ []) :
    ∀ xs : List α, xs.length ≤ (xs.map enc).flatten.length := by
  intro xs
  induction xs with
  | nil => simp
  | cons x xs ih =>
    simp only [List.map_cons, List.flatten_cons, List.length_append, List.length_cons]
    have : 0 < (enc x).length := List.length_pos.mpr (hne x)
    omega

theorem parseListWith_derList (p : Bytes → Option (α × Bytes)) (enc : α → Bytes)
    (henc : ∀ x r, p (enc x ++ r) = some (x, r))
    (hne : ∀ x, enc x ≠ []) (xs : List α) (rest : Bytes) :
    parseListWith p (derList enc xs ++ rest) = some (xs, rest) := by
  simp only [parseListWith, derList, parseTLV_tlv]
  rw [parseSeq_join p enc henc hne xs _ (length_le_join_length enc hne xs)]

theorem derList_ne_nil (enc : α → Bytes) (xs : List α) : derList enc xs ≠ [] :=
  tlv_ne_nil _ _

/-! ## SHA-1 (`crypto/sha1`), over `Nat` with explicit reduction mod 2^32 -/

/-- Rotate a 32-bit word left by `n` bits. -/
def rotl32 (n x : Nat) : Nat :=
  ((x <<< n) % 4294967296) ||| (x >>> (32 - n))

/-- Big-endian bytes of a 32-bit word. -/
def word32BE (w : Nat) : Bytes :=
  [(w >>> 24) % 256, (w >>> 16) % 256, (w >>> 8) % 256, w % 256]

/-- Big-endian bytes of a 64-bit word (the SHA-1 bit-length trailer). -/
def word64BE (w : Nat) : Bytes :=
  [(w >>> 56) % 256, (w >>> 48) % 256, (w >>> 40) % 256, (w >>> 32) % 256,
   (w >>> 24) % 256, (w >>> 16) % 256, (w >>> 8) % 256, w % 256]

/-- SHA-1 padding: append `0x80`, zero bytes to 56 mod 64, then the message
bit length as a 64-bit big-endian integer. -/
def sha1Pad (msg : Bytes) : Bytes :=
  let len := msg.length
  let zeros := (64 + 56 - ((len + 1) % 64)) % 64
  msg ++ 128 :: (List.replicate zeros 0 ++ word64BE (len * 8))

/-- Fuel-driven worker for `chunks64` (structural recursion for kernel
evaluation; the fuel is always sufficient at the call site). -/
def chunks64Aux : Nat → Bytes → List Bytes
  | _, [] => []
  | 0, _ :: _ => []
  | fuel + 1, b :: bs => (b :: bs).take 64 :: chunks64Aux fuel ((b :: bs).drop 64)

/-- Split a byte sequence into 64-byte chunks. -/
def chunks64 (bs : Bytes) : List Bytes := chunks64Aux bs.length bs

/-- The `i`-th big-endian 32-bit word of a chunk. -/
def chunkWord (chunk : Bytes) (i : Nat) : Nat :=
  chunk.getD (4 * i) 0 * 16777216 + chunk.getD (4 * i + 1) 0 * 65536 +
    chunk.getD (4 * i + 2) 0 * 256 + chunk.getD (4 * i + 3) 0

/-- First `n` entries of the SHA-1 message schedule for a chunk. -/
def sha1W (chunk : Bytes) : Nat → List Nat
  | 0 => []
  | i + 1 =>
    let prev := sha1W chunk i
    let w :=
      if i < 16 then chunkWord chunk i
      else
        rotl32 1 ((prev.getD (i - 3) 0) ^^^ (prev.getD (i - 8) 0) ^^^
          (prev.getD (i - 14) 0) ^^^ (prev.getD (i - 16) 0))
    prev ++ [w]

/-- Round function and constant for round `i`. -/
def sha1FK (i b c d : Nat) : Nat × Nat :=
  if i < 20 then ((b &&& c) ||| ((b ^^^ 4294967295) &&& d), 1518500249)
  else if i < 40 then (b ^^^ c ^^^ d, 1859775393)
  else if i < 60 then ((b &&& c) ||| (b &&& d) ||| (c &&& d), 2400959708)
  else (b ^^^ c ^^^ d, 3395469782)

/-- One SHA-1 round. -/
def sha1Step (w : List Nat) (st : Nat × Nat × Nat × Nat × Nat) (i : Nat) :
    Nat × Nat × Nat × Nat × Nat :=
  let (a, b, c, d, e) := st
  let fk := sha1FK i b c d
  let temp := (rotl32 5 a + fk.1 + e + fk.2 + w.getD i 0) % 4294967296
  (temp, a, rotl32 30 b, c, d)

/-- Process one 64-byte chunk. -/
def sha1Chunk (h : Nat × Nat × Nat × Nat × Nat) (chunk : Bytes) :
    Nat × Nat × Nat × Nat × Nat :=
  let w := sha1W chunk 80
  let st := (List.range 80).foldl (sha1Step w) h
  ((h.1 + st.1) % 4294967296, (h.2.1 + st.2.1) % 4294967296,
   (h.2.2.1 + st.2.2.1) % 4294967296, (h.2.2.2.1 + st.2.2.2.1) % 4294967296,
   (h.2.2.2.2 + st.2.2.2.2) % 4294967296)

/-- `sha1.Sum`: the 20-byte SHA-1 digest of a byte sequence. -/
def sha1Sum (msg : Bytes) : Bytes :=
  let init : Nat × Nat × Nat × Nat × Nat :=
    (1732584193, 4023233417, 2562383102, 271733878, 3285377520)
  let h := (chunks64 (sha1Pad msg)).foldl sha1Chunk init
  word32BE h.1 ++ word32BE h.2.1 ++ word32BE h.2.2.1 ++
    word32BE h.2.2.2.1 ++ word32BE h.2.2.2.2

theorem sha1Sum_length (msg : Bytes) : (sha1Sum msg).length = 20 := by
  simp [sha1Sum, word32BE]

theorem word32BE_lt (w : Nat) : ∀ b ∈ word32BE w, b < 256 := by
  intro b hb
  simp only [word32BE, List.mem_cons, List.not_mem_nil, or_false] at hb
  rcases hb with h | h | h | h <;> (subst h; exact Nat.mod_lt _ (by omega))

theorem sha1Sum_lt (msg : Bytes) : ∀ b ∈ sha1Sum msg, b < 256 := by
  intro b hb
  simp only [sha1Sum, List.mem_append] at hb
  rcases hb with ((((h | h) | h) | h) | h) <;> exact word32BE_lt _ b h

/-! ## Data model (`CertCfg`, `pkix.Name`, keys, certificates, CSRs) -/

/-- A Go string: an immutable byte sequence. -/
abbrev GoString := List Nat

/-- `pkix.Name` restricted to the fields this library sets and compares
(`Names`, the parsed-attribute cache, is deliberately not modelled: the
validator ignores it via `cmpopts.IgnoreFields`). -/
structure PkixName where
  commonName : GoString
  organizationalUnit : List GoString
  organization : List GoString
deriving DecidableEq, Repr

/-- A `crypto.PublicKey`: Go's open interface type, modelled as a closed sum
of the RSA and ECDSA cases the code handles plus an `other` case for any
further dynamic type. -/
inductive PublicKey where
  | rsa (n e : Nat)
  | ecdsa (curve x y : Nat)
  | other (tag : Nat)
deriving DecidableEq, Repr

/-- `rsa.PrivateKey` with two primes; the public part is `(n, e)`. -/
structure RSAPrivateKey where
  n : Nat
  e : Nat
  d : Nat
  p : Nat
  q : Nat
deriving DecidableEq, Repr

/-- `CertCfg` from `tls.go`: all fields needed to configure a new certificate. -/
structure CertCfg where
  dnsNames : List GoString
  extKeyUsages : List Nat
  ipAddresses : List Bytes
  keyUsages : Nat
  subject : PkixName
  validity : Int
  isCA : Bool
deriving DecidableEq, Repr

/-- An `x509.Certificate`, restricted to the fields this library writes and
reads.  `Raw` is not stored: it is recomputed as `certDER` (the parser is a
two-sided inverse of the encoder, so this is faithful). -/
structure Certificate where
  dnsNames : List GoString
  extKeyUsage : List Nat
  ipAddresses : List Bytes
  keyUsage : Nat
  notAfter : Int
  notBefore : Int
  serialNumber : Nat
  subject : PkixName
  isCA : Bool
  version : Nat
  basicConstraintsValid : Bool
  subjectKeyId : Bytes
  publicKey : PublicKey
  issuer : PkixName
deriving DecidableEq, Repr

/-- An `x509.CertificateRequest`, restricted to the fields used. -/
structure CertificateRequest where
  subject : PkixName
  dnsNames : List GoString
  ipAddresses : List Bytes
  publicKey : PublicKey
deriving DecidableEq, Repr

/-- The error outcomes of the Go code (source errors are strings; they are
modelled by which code path produced them). -/
inductive GoErr where
  | invalidSubject
  | unsupportedKeyAlgorithm
  | pemBlockNotFound
  | asn1Parse
  | notRSAPublicKey
  | keyCertificateMismatch
deriving DecidableEq, Repr

/-- Outcome of a Go function that can also `panic` (an unchecked type
assertion): `ok`, returned error, or panic. -/
inductive GoResult (α : Type) where
  | ok (a : α)
  | err (e : GoErr)
  | panics
deriving DecidableEq, Repr

/-! ## DER encodings of the structures, with inverse parsers -/

/-- Model of the DER for a distinguished name (tag 49 in this model). -/
def pkixNameDER (nm : PkixName) : Bytes :=
  tlv 49 (derBytes nm.commonName ++ derList derBytes nm.organizationalUnit ++
    derList derBytes nm.organization)

theorem parseListWith_bytes (xs : List Bytes) (rest : Bytes) :
    parseListWith parseBytes (derList derBytes xs ++ rest) = some (xs, rest) :=
  parseListWith_derList parseBytes derBytes parseBytes_derBytes derBytes_ne_nil xs rest

theorem parseListWith_nat (xs : List Nat) (rest : Bytes) :
    parseListWith parseNat (derList derNat xs ++ rest) = some (xs, rest) :=
  parseListWith_derList parseNat derNat parseNat_derNat derNat_ne_nil xs rest

/-- Parse a distinguished name. -/
def parsePkixName (bs : Bytes) : Option (PkixName × Bytes) :=
  match parseTLV 49 bs with
  | none => none
  | some (c, r) =>
    match parseBytes c with
    | none => none
    | some (cn, c1) =>
      match parseListWith parseBytes c1 with
      | none => none
      | some (ou, c2) =>
        match parseListWith parseBytes c2 with
        | none => none
        | some (o, c3) =>
          if c3 = [] then some (⟨cn, ou, o⟩, r) else none

theorem parseNat_derNat_nil (n : Nat) : parseNat (derNat n) = some (n, []) := by
  simpa using parseNat_derNat n []

theorem parseBytes_derBytes_nil (s : Bytes) : parseBytes (derBytes s) = some (s, []) := by
  simpa using parseBytes_derBytes s []

theorem parseListWith_bytes_nil (xs : List Bytes) :
    parseListWith parseBytes (derList derBytes xs) = some (xs, []) := by
  simpa using parseListWith_bytes xs []

theorem parseListWith_nat_nil (xs : List Nat) :
    parseListWith parseNat (derList derNat xs) = some (xs, []) := by
  simpa using parseListWith_nat xs []

theorem parsePkixName_pkixNameDER (nm : PkixName) (rest : Bytes) :
    parsePkixName (pkixNameDER nm ++ rest) = some (nm, rest) := by
  obtain ⟨cn, ou, o⟩ := nm
  simp [parsePkixName, pkixNameDER, parseTLV_tlv, List.append_assoc,
    parseBytes_derBytes, parseListWith_bytes, parseListWith_bytes_nil]

theorem pkixNameDER_ne_nil (nm : PkixName) : pkixNameDER nm ≠ [] := tlv_ne_nil _ _

/-- Model of the wire encoding of a public key, tagged by algorithm. -/
def publicKeyDER : PublicKey → Bytes
  | .rsa n e => tlv 160 (derNat n ++ derNat e)
  | .ecdsa c x y => tlv 161 (derNat c ++ derNat x ++ derNat y)
  | .other t => tlv 162 (derNat t)

/-- Parse a public key. -/
def parsePublicKey (bs : Bytes) : Option (PublicKey × Bytes) :=
  match parseTLV 160 bs with
  | some (c, r) =>
    (match parseNat c with
     | none => none
     | some (n, c1) =>
       match parseNat c1 with
       | none => none
       | some (e, c2) => if c2 = [] then some (.rsa n e, r) else none)
  | none =>
    match parseTLV 161 bs with
    | some (c, r) =>
      (match parseNat c with
       | none => none
       | some (cv, c1) =>
         match parseNat c1 with
         | none => none
         | some (x, c2) =>
           match parseNat c2 with
           | none => none
           | some (y, c3) => if c3 = [] then some (.ecdsa cv x y, r) else none)
    | none =>
      match parseTLV 162 bs with
      | some (c, r) =>
        (match parseNat c with
         | none => none
         | some (t, c1) => if c1 = [] then some (.other t, r) else none)
      | none => none

theorem parseTLV_tlv_ne (tag tag' : Nat) (h : tag' ≠ tag) (c rest : Bytes) :
    parseTLV tag (tlv tag' c ++ rest) = none := by
  simp [tlv, parseTLV, h]

theorem parsePublicKey_publicKeyDER (pk : PublicKey) (rest : Bytes) :
    parsePublicKey (publicKeyDER pk ++ rest) = some (pk, rest) := by
  cases pk with
  | rsa n e =>
    simp [publicKeyDER, parsePublicKey, parseTLV_tlv, List.append_assoc,
      parseNat_derNat, parseNat_derNat_nil]
  | ecdsa cv x y =>
    simp [publicKeyDER, parsePublicKey, parseTLV_tlv_ne 160 161 (by omega),
      parseTLV_tlv, List.append_assoc, parseNat_derNat, parseNat_derNat_nil]
  | other t =>
    simp [publicKeyDER, parsePublicKey, parseTLV_tlv_ne 160 162 (by omega),
      parseTLV_tlv_ne 161 162 (by omega), parseTLV_tlv, parseNat_derNat_nil]

theorem publicKeyDER_ne_nil (pk : PublicKey) : publicKeyDER pk ≠ [] := by
  cases pk <;> simp [publicKeyDER, tlv]

theorem parseBool_derBool_nil (b : Bool) : parseBool (derBool b) = some (b, []) := by
  simpa using parseBool_derBool b []

theorem parseTime_derTime_nil (t : Int) : parseTime (derTime t) = some (t, []) := by
  simpa using parseTime_derTime t []

theorem parsePkixName_pkixNameDER_nil (nm : PkixName) :
    parsePkixName (pkixNameDER nm) = some (nm, []) := by
  simpa using parsePkixName_pkixNameDER nm []

theorem parsePublicKey_publicKeyDER_nil (pk : PublicKey) :
    parsePublicKey (publicKeyDER pk) = some (pk, []) := by
  simpa using parsePublicKey_publicKeyDER pk []

/-- Model of `cert.Raw`: the DER encoding of a certificate, as produced by
`x509.CreateCertificate` — an outer SEQUENCE carrying every modelled field. -/
def certDER (c : Certificate) : Bytes :=
  tlv 48 (derList derBytes c.dnsNames ++ derList derNat c.extKeyUsage ++
    derList derBytes c.ipAddresses ++ derNat c.keyUsage ++ derTime c.notAfter ++
    derTime c.notBefore ++ derNat c.serialNumber ++ pkixNameDER c.subject ++
    derBool c.isCA ++ derNat c.version ++ derBool c.basicConstraintsValid ++
    derBytes c.subjectKeyId ++ publicKeyDER c.publicKey ++ pkixNameDER c.issuer)

/-- Parse a certificate from DER, returning the rest of the input. -/
def parseCertificateDER (bs : Bytes) : Option (Certificate × Bytes) :=
  match parseTLV 48 bs with
  | none => none
  | some (c, r) =>
    match parseListWith parseBytes c with
    | none => none
    | some (dns, c1) =>
    match parseListWith parseNat c1 with
    | none => none
    | some (eku, c2) =>
    match parseListWith parseBytes c2 with
    | none => none
    | some (ips, c3) =>
    match parseNat c3 with
    | none => none
    | some (ku, c4) =>
    match parseTime c4 with
    | none => none
    | some (na, c5) =>
    match parseTime c5 with
    | none => none
    | some (nb, c6) =>
    match parseNat c6 with
    | none => none
    | some (serial, c7) =>
    match parsePkixName c7 with
    | none => none
    | some (subj, c8) =>
    match parseBool c8 with
    | none => none
    | some (isCA, c9) =>
    match parseNat c9 with
    | none => none
    | some (ver, c10) =>
    match parseBool c10 with
    | none => none
    | some (bcv, c11) =>
    match parseBytes c11 with
    | none => none
    | some (skid, c12) =>
    match parsePublicKey c12 with
    | none => none
    | some (pk, c13) =>
    match parsePkixName c13 with
    | none => none
    | some (iss, c14) =>
      if c14 = [] then
        some (⟨dns, eku, ips, ku, na, nb, serial, subj, isCA, ver, bcv, skid, pk, iss⟩, r)
      else none

theorem parseCertificateDER_certDER (c : Certificate) (rest : Bytes) :
    parseCertificateDER (certDER c ++ rest) = some (c, rest) := by
  obtain ⟨dns, eku, ips, ku, na, nb, serial, subj, isCA, ver, bcv, skid, pk, iss⟩ := c
  simp [parseCertificateDER, certDER, parseTLV_tlv, List.append_assoc,
    parseListWith_bytes, parseListWith_nat, parseNat_derNat, parseTime_derTime,
    parsePkixName_pkixNameDER, parseBool_derBool, parseBytes_derBytes,
    parsePublicKey_publicKeyDER, parsePkixName_pkixNameDER_nil]

/-- `x509.ParseCertificate`: the DER must hold exactly one certificate. -/
def parseCertificate (bs : Bytes) : Except GoErr Certificate :=
  match parseCertificateDER bs with
  | some (c, []) => .ok c
  | _ => .error .asn1Parse

theorem parseCertificate_certDER (c : Certificate) :
    parseCertificate (certDER c) = .ok c := by
  have h := parseCertificateDER_certDER c []
  rw [List.append_nil] at h
  simp [parseCertificate, h]

/-- Model of CSR DER (tag 50): subject, DNS names, IP addresses, public key. -/
def csrDER (csr : CertificateRequest) : Bytes :=
  tlv 50 (pkixNameDER csr.subject ++ derList derBytes csr.dnsNames ++
    derList derBytes csr.ipAddresses ++ publicKeyDER csr.publicKey)

/-- `x509.CreateCertificateRequest` applied to the template built by
`GenerateSignedCertificate` (subject, DNS names, IP addresses) and the
subject's key: serializes the request, carrying the key's public part. -/
def createCertificateRequest (subject : PkixName) (dnsNames : List GoString)
    (ipAddresses : List Bytes) (key : RSAPrivateKey) : Bytes :=
  csrDER ⟨subject, dnsNames, ipAddresses, .rsa key.n key.e⟩

/-- Parse a CSR from DER, returning the rest of the input. -/
def parseCertificateRequestDER (bs : Bytes) : Option (CertificateRequest × Bytes) :=
  match parseTLV 50 bs with
  | none => none
  | some (c, r) =>
    match parsePkixName c with
    | none => none
    | some (subj, c1) =>
    match parseListWith parseBytes c1 with
    | none => none
    | some (dns, c2) =>
    match parseListWith parseBytes c2 with
    | none => none
    | some (ips, c3) =>
    match parsePublicKey c3 with
    | none => none
    | some (pk, c4) =>
      if c4 = [] then some (⟨subj, dns, ips, pk⟩, r) else none

/-- `x509.ParseCertificateRequest`. -/
def parseCertificateRequest (bs : Bytes) : Except GoErr CertificateRequest :=
  match parseCertificateRequestDER bs with
  | some (csr, []) => .ok csr
  | _ => .error .asn1Parse

theorem parseCertificateRequestDER_csrDER (csr : CertificateRequest) (rest : Bytes) :
    parseCertificateRequestDER (csrDER csr ++ rest) = some (csr, rest) := by
  obtain ⟨subj, dns, ips, pk⟩ := csr
  simp [parseCertificateRequestDER, csrDER, parseTLV_tlv, List.append_assoc,
    parsePkixName_pkixNameDER, parseListWith_bytes, parsePublicKey_publicKeyDER,
    parsePublicKey_publicKeyDER_nil]

theorem parseCertificateRequest_csrDER (csr : CertificateRequest) :
    parseCertificateRequest (csrDER csr) = .ok csr := by
  have h := parseCertificateRequestDER_csrDER csr []
  rw [List.append_nil] at h
  simp [parseCertificateRequest, h]

/-- Modular inverse by bounded search (model of the `big.Int` computation
behind `rsa.PrivateKey.Precompute`; kernel-evaluable). -/
def modInvAux (a m : Nat) : Nat → Nat
  | 0 => 0
  | k + 1 => if a * (k + 1) % m = 1 then k + 1 else modInvAux a m k

/-- `q⁻¹ mod p` (0 when no inverse exists). -/
def modInv (a m : Nat) : Nat := modInvAux a m m

/-- `x509.MarshalPKCS1PrivateKey`: DER SEQUENCE of version 0, n, e, d, p, q
and the precomputed CRT values `d mod (p-1)`, `d mod (q-1)`, `q⁻¹ mod p`. -/
def marshalPKCS1PrivateKey (key : RSAPrivateKey) : Bytes :=
  tlv 48 (derNat 0 ++ derNat key.n ++ derNat key.e ++ derNat key.d ++
    derNat key.p ++ derNat key.q ++ derNat (key.d % (key.p - 1)) ++
    derNat (key.d % (key.q - 1)) ++ derNat (modInv key.q key.p))

/-- `x509.ParsePKCS1PrivateKey`: parse the nine integers, require version 0
and that the primes multiply to the modulus (the structural core of the
library's `Validate`; its remaining congruence checks are not modelled), and
rebuild the key — the CRT values are recomputed, not trusted. -/
def parsePKCS1PrivateKey (bs : Bytes) : Except GoErr RSAPrivateKey :=
  match parseTLV 48 bs with
  | none => .error .asn1Parse
  | some (c, r) =>
    match parseNat c with
    | none => .error .asn1Parse
    | some (ver, c1) =>
    match parseNat c1 with
    | none => .error .asn1Parse
    | some (n, c2) =>
    match parseNat c2 with
    | none => .error .asn1Parse
    | some (e, c3) =>
    match parseNat c3 with
    | none => .error .asn1Parse
    | some (d, c4) =>
    match parseNat c4 with
    | none => .error .asn1Parse
    | some (p, c5) =>
    match parseNat c5 with
    | none => .error .asn1Parse
    | some (q, c6) =>
    match parseNat c6 with
    | none => .error .asn1Parse
    | some (_, c7) =>
    match parseNat c7 with
    | none => .error .asn1Parse
    | some (_, c8) =>
    match parseNat c8 with
    | none => .error .asn1Parse
    | some (_, c9) =>
      if r = [] ∧ c9 = [] ∧ ver = 0 ∧ p * q = n then .ok ⟨n, e, d, p, q⟩
      else .error .asn1Parse

theorem parseTLV_tlv_nil (tag : Nat) (c : Bytes) :
    parseTLV tag (tlv tag c) = some (c, []) := by
  simpa using parseTLV_tlv tag c []

theorem parsePKCS1_marshalPKCS1 (key : RSAPrivateKey) (hpq : key.p * key.q = key.n) :
    parsePKCS1PrivateKey (marshalPKCS1PrivateKey key) = .ok key := by
  obtain ⟨n, e, d, p, q⟩ := key
  simp only at hpq
  simp [parsePKCS1PrivateKey, marshalPKCS1PrivateKey, parseTLV_tlv_nil,
    List.append_assoc, parseNat_derNat, parseNat_derNat_nil, hpq]

/-! ## Base64 (`encoding/base64`, standard alphabet) -/

/-- The 64 byte values of the standard base64 alphabet. -/
def base64Alphabet : Bytes :=
  [65, 66, 67, 68, 69, 70, 71, 72, 73, 74, 75, 76, 77, 78, 79, 80, 81, 82,
   83, 84, 85, 86, 87, 88, 89, 90,
   97, 98, 99, 100, 101, 102, 103, 104, 105, 106, 107, 108, 109, 110, 111,
   112, 113, 114, 115, 116, 117, 118, 119, 120, 121, 122,
   48, 49, 50, 51, 52, 53, 54, 55, 56, 57, 43, 47]

/-- The alphabet byte for a sextet. -/
def sextetChar (v : Nat) : Nat := base64Alphabet.getD (v % 64) 65

/-- Inverse alphabet lookup; `none` for bytes outside the alphabet
(in particular for the padding byte `=` = 61). -/
def charVal (c : Nat) : Option Nat :=
  let i := base64Alphabet.findIdx (fun x => x == c)
  if i < 64 then some i else none

theorem charVal_sextetChar : ∀ v, v < 64 → charVal (sextetChar v) = some v := by
  decide

theorem sextetChar_ne_newline (v : Nat) : sextetChar v ≠ 10 := by
  have h : v % 64 < 64 := Nat.mod_lt _ (by omega)
  rw [sextetChar]
  revert h
  generalize v % 64 = k
  revert k
  decide

theorem sextetChar_ne_pad (v : Nat) : sextetChar v ≠ 61 := by
  have h : v % 64 < 64 := Nat.mod_lt _ (by omega)
  rw [sextetChar]
  revert h
  generalize v % 64 = k
  revert k
  decide

/-- Base64 encoding (the bit operations of the library are written with the
equivalent `/`, `%`, `*` arithmetic). -/
def base64Encode : Bytes → Bytes
  | [] => []
  | [b1] => [sextetChar (b1 / 4), sextetChar (b1 % 4 * 16), 61, 61]
  | [b1, b2] =>
    [sextetChar (b1 / 4), sextetChar (b1 % 4 * 16 + b2 / 16),
     sextetChar (b2 % 16 * 4), 61]
  | b1 :: b2 :: b3 :: rest =>
    sextetChar (b1 / 4) :: sextetChar (b1 % 4 * 16 + b2 / 16) ::
      sextetChar (b2 % 16 * 4 + b3 / 64) :: sextetChar (b3 % 64) ::
      base64Encode rest

/-- Base64 decoding; rejects input that is not a sequence of 4-byte groups
with padding only in the final group. -/
def base64Decode : Bytes → Option Bytes
  | [] => some []
  | c1 :: c2 :: c3 :: c4 :: rest =>
    (match charVal c1, charVal c2 with
     | some v1, some v2 =>
       if c3 = 61 then
         if c4 = 61 ∧ rest = [] then some [v1 * 4 + v2 / 16] else none
       else
         match charVal c3 with
         | some v3 =>
           if c4 = 61 then
             if rest = [] then some [v1 * 4 + v2 / 16, v2 % 16 * 16 + v3 / 4]
             else none
           else
             match charVal c4 with
             | some v4 =>
               (match base64Decode rest with
                | some bs =>
                  some ((v1 * 4 + v2 / 16) :: (v2 % 16 * 16 + v3 / 4) ::
                    (v3 % 4 * 64 + v4) :: bs)
                | none => none)
             | none => none
         | none => none
     | _, _ => none)
  | _ => none

theorem base64Encode_ne_newline : ∀ bs : Bytes, ∀ c ∈ base64Encode bs, c ≠ 10
  | [] => by simp [base64Encode]
  | [b1] => by
    simp only [base64Encode, List.mem_cons, List.not_mem_nil, or_false]
    rintro c (h | h | h | h) <;> subst h <;>
      first
        | exact sextetChar_ne_newline _
        | omega
  | [b1, b2] => by
    simp only [base64Encode, List.mem_cons, List.not_mem_nil, or_false]
    rintro c (h | h | h | h) <;> subst h <;>
      first
        | exact sextetChar_ne_newline _
        | omega
  | b1 :: b2 :: b3 :: rest => by
    simp only [base64Encode, List.mem_cons]
    rintro c (h | h | h | h | h)
    · subst h; exact sextetChar_ne_newline _
    · subst h; exact sextetChar_ne_newline _
    · subst h; exact sextetChar_ne_newline _
    · subst h; exact sextetChar_ne_newline _
    · exact base64Encode_ne_newline rest c h

theorem base64Decode_base64Encode :
    ∀ bs : Bytes, (∀ b ∈ bs, b < 256) →
      base64Decode (base64Encode bs) = some bs
  | [], _ => rfl
  | [b1], h => by
    have hb1 : b1 < 256 := h b1 (by simp)
    simp [base64Encode, base64Decode, charVal_sextetChar (b1 / 4) (by omega),
      charVal_sextetChar (b1 % 4 * 16) (by omega)]
    omega
  | [b1, b2], h => by
    have hb1 : b1 < 256 := h b1 (by simp)
    have hb2 : b2 < 256 := h b2 (by simp)
    simp [base64Encode, base64Decode, charVal_sextetChar (b1 / 4) (by omega),
      charVal_sextetChar (b1 % 4 * 16 + b2 / 16) (by omega),
      charVal_sextetChar (b2 % 16 * 4) (by omega), sextetChar_ne_pad]
    omega
  | b1 :: b2 :: b3 :: rest, h => by
    have hb1 : b1 < 256 := h b1 (by simp)
    have hb2 : b2 < 256 := h b2 (by simp)
    have hb3 : b3 < 256 := h b3 (by simp)
    have ih := base64Decode_base64Encode rest (fun b hb => h b (by simp [hb]))
    simp [base64Encode, base64Decode, charVal_sextetChar (b1 / 4) (by omega),
      charVal_sextetChar (b1 % 4 * 16 + b2 / 16) (by omega),
      charVal_sextetChar (b2 % 16 * 4 + b3 / 64) (by omega),
      charVal_sextetChar (b3 % 64) (by omega), sextetChar_ne_pad, ih]
    omega

/-! ## PEM armor (`encoding/pem`) -/

/-- "-----BEGIN " (the 11 bytes opening a PEM header line). -/
def pemBeginTag : Bytes := [45, 45, 45, 45, 45, 66, 69, 71, 73, 78, 32]

/-- "-----END " (the 9 bytes opening a PEM footer line). -/
def pemEndTag : Bytes := [45, 45, 45, 45, 45, 69, 78, 68, 32]

/-- "-----". -/
def pemDashes : Bytes := [45, 45, 45, 45, 45]

/-- Split at the first newline (0x0A), dropping it. -/
def takeLine : Bytes → Bytes × Bytes
  | [] => ([], [])
  | b :: rest =>
    if b = 10 then ([], rest)
    else
      let p := takeLine rest
      (b :: p.1, p.2)

theorem takeLine_append (xs ys : Bytes) (h : 10 ∉ xs) :
    takeLine (xs ++ 10 :: ys) = (xs, ys) := by
  induction xs with
  | nil => simp [takeLine]
  | cons x xs ih =>
    have hx : x ≠ 10 := by intro he; exact h (by simp [he])
    simp only [List.cons_append, takeLine, if_neg hx, List.append_eq]
    rw [ih (fun hm => h (List.mem_cons_of_mem _ hm))]

/-- `pem.EncodeToMemory`: armored block with the base64 body on one line
(Go wraps the body at 64 columns and strips the breaks again on decode;
the wrapping is invisible to everything studied here). -/
def pemEncode (t der : Bytes) : Bytes :=
  pemBeginTag ++ t ++ pemDashes ++ 10 ::
    (base64Encode der ++ 10 :: (pemEndTag ++ t ++ pemDashes ++ [10]))

/-- `pem.Decode`: parse an armored block into (type, DER bytes); `none` when
no block is found.  The model requires the block to start the input (the
library scans past leading text, which no caller in the source relies on). -/
def pemDecode (data : Bytes) : Option (Bytes × Bytes) :=
  let p := takeLine data
  let l1 := p.1
  if l1.take 11 = pemBeginTag ∧ 16 ≤ l1.length ∧
      (l1.drop 11).drop ((l1.drop 11).length - 5) = pemDashes then
    let t := (l1.drop 11).take ((l1.drop 11).length - 5)
    let q := takeLine p.2
    match base64Decode q.1 with
    | none => none
    | some der =>
      let r := takeLine q.2
      if r.1 = pemEndTag ++ t ++ pemDashes then some (t, der) else none
  else none

theorem pemBeginTag_no_newline : (10 : Nat) ∉ pemBeginTag := by decide

theorem pemDecode_pemEncode (t der : Bytes) (ht : 10 ∉ t)
    (hder : ∀ b ∈ der, b < 256) :
    pemDecode (pemEncode t der) = some (t, der) := by
  have hline1 : 10 ∉ pemBeginTag ++ t ++ pemDashes := by
    intro hm
    rcases List.mem_append.mp hm with hm | hm
    · rcases List.mem_append.mp hm with hm | hm
      · exact pemBeginTag_no_newline hm
      · exact ht hm
    · revert hm; decide
  have hline3 : 10 ∉ pemEndTag ++ t ++ pemDashes := by
    intro hm
    rcases List.mem_append.mp hm with hm | hm
    · rcases List.mem_append.mp hm with hm | hm
      · revert hm; decide
      · exact ht hm
    · revert hm; decide
  have hbody : 10 ∉ base64Encode der := by
    intro hm
    exact base64Encode_ne_newline der 10 hm rfl
  simp only [pemDecode, pemEncode]
  rw [takeLine_append _ _ hline1]
  have htake : (pemBeginTag ++ t ++ pemDashes).take 11 = pemBeginTag := by
    rw [List.append_assoc, List.take_append_of_le_length (by simp [pemBeginTag])]
    simp [pemBeginTag]
  have hdrop : (pemBeginTag ++ t ++ pemDashes).drop 11 = t ++ pemDashes := by
    rw [List.append_assoc]
    rw [show (11 : Nat) = pemBeginTag.length from rfl, List.drop_left]
  have hlen : 16 ≤ (pemBeginTag ++ t ++ pemDashes).length := by
    simp [pemBeginTag, pemDashes, List.length_append]
  have hlen5 : (t ++ pemDashes).length - 5 = t.length := by
    simp [pemDashes, List.length_append]
  have hdrop5 : (t ++ pemDashes).drop t.length = pemDashes := List.drop_left _ _
  have htake5 : (t ++ pemDashes).take t.length = t := List.take_left _ _
  rw [if_pos ⟨htake, hlen, by rw [hdrop, hlen5, hdrop5]⟩]
  rw [hdrop, hlen5, htake5]
  have hb : base64Encode der ++ 10 :: (pemEndTag ++ t ++ pemDashes ++ [10]) =
      base64Encode der ++ 10 :: (pemEndTag ++ t ++ pemDashes ++ [10]) := rfl
  rw [takeLine_append _ _ hbody]
  rw [base64Decode_base64Encode der hder]
  have : pemEndTag ++ t ++ pemDashes ++ [10] =
      (pemEndTag ++ t ++ pemDashes) ++ 10 :: [] := by simp
  rw [this, takeLine_append _ _ hline3]
  simp

/-! ## The PEM conversion functions of `tls.go` -/

/-- "RSA PRIVATE KEY". -/
def typeRSAPrivateKey : Bytes :=
  [82, 83, 65, 32, 80, 82, 73, 86, 65, 84, 69, 32, 75, 69, 89]

/-- "CERTIFICATE". -/
def typeCertificate : Bytes := [67, 69, 82, 84, 73, 70, 73, 67, 65, 84, 69]

/-- "CERTIFICATE REQUEST". -/
def typeCertificateRequest : Bytes :=
  [67, 69, 82, 84, 73, 70, 73, 67, 65, 84, 69, 32, 82, 69, 81, 85, 69, 83, 84]

/-- "RSA PUBLIC KEY". -/
def typeRSAPublicKey : Bytes :=
  [82, 83, 65, 32, 80, 85, 66, 76, 73, 67, 32, 75, 69, 89]

/-- `PrivateKeyToPem`. -/
def PrivateKeyToPem (key : RSAPrivateKey) : Bytes :=
  pemEncode typeRSAPrivateKey (marshalPKCS1PrivateKey key)

/-- `CertToPem` (uses `cert.Raw`, i.e. the certificate's DER). -/
def CertToPem (cert : Certificate) : Bytes :=
  pemEncode typeCertificate (certDER cert)

/-- `CSRToPem` (uses `csr.Raw`, i.e. the request's DER). -/
def CSRToPem (csr : CertificateRequest) : Bytes :=
  pemEncode typeCertificateRequest (csrDER csr)

/-- Model of `x509.MarshalPKIXPublicKey` on an RSA public key (cannot fail
for a well-formed RSA key). -/
def marshalPKIXPublicKey (n e : Nat) : Bytes := tlv 51 (derNat n ++ derNat e)

/-- `PublicKeyToPem`: wraps the PKIX encoding; the only error path wraps a
`MarshalPKIXPublicKey` failure, which cannot occur for an RSA key. -/
def PublicKeyToPem (n e : Nat) : Except GoErr Bytes :=
  .ok (pemEncode typeRSAPublicKey (marshalPKIXPublicKey n e))

/-- `PemToPrivateKey`: find a PEM block (its type is not inspected by the
source) and parse the body as a PKCS#1 private key. -/
def PemToPrivateKey (data : Bytes) : Except GoErr RSAPrivateKey :=
  match pemDecode data with
  | none => .error .pemBlockNotFound
  | some (_, der) => parsePKCS1PrivateKey der

/-- `PemToCertificate`: find a PEM block and parse the body as a certificate. -/
def PemToCertificate (data : Bytes) : Except GoErr Certificate :=
  match pemDecode data with
  | none => .error .pemBlockNotFound
  | some (_, der) => parseCertificate der

theorem PemToPrivateKey_PrivateKeyToPem (key : RSAPrivateKey)
    (hpq : key.p * key.q = key.n)
    (hbytes : ∀ b ∈ marshalPKCS1PrivateKey key, b < 256) :
    PemToPrivateKey (PrivateKeyToPem key) = .ok key := by
  rw [PemToPrivateKey, PrivateKeyToPem,
    pemDecode_pemEncode _ _ (by decide) hbytes]
  exact parsePKCS1_marshalPKCS1 key hpq

theorem PemToCertificate_CertToPem (cert : Certificate)
    (hbytes : ∀ b ∈ certDER cert, b < 256) :
    PemToCertificate (CertToPem cert) = .ok cert := by
  rw [PemToCertificate, CertToPem, pemDecode_pemEncode _ _ (by decide) hbytes]
  exact parseCertificate_certDER cert

/-! ## Subject key identifier and the certificate factories -/

/-- `asn1.Marshal(rsaPublicKey{N, E})`: the DER SEQUENCE of the two INTEGERs. -/
def asn1MarshalRSAPublicKey (n e : Nat) : Bytes := tlv 48 (derNat n ++ derNat e)

/-- `elliptic.Marshal`: uncompressed-point encoding `0x04 ‖ X ‖ Y` (the
fixed-width zero padding of the coordinates is not modelled; no claim
depends on it). -/
def ellipticMarshal (x y : Nat) : Bytes := 4 :: (natBEBytes x ++ natBEBytes y)

/-- `generateSubjectKeyID`: SHA-1 of the key's wire encoding; RSA and ECDSA
only, every other dynamic type is an error. -/
def generateSubjectKeyID : PublicKey → Except GoErr Bytes
  | .rsa n e => .ok (sha1Sum (asn1MarshalRSAPublicKey n e))
  | .ecdsa _ x y => .ok (sha1Sum (ellipticMarshal x y))
  | .other _ => .error .unsupportedKeyAlgorithm

/-- `x509.CreateCertificate(rand, template, parent, pub, priv)`: serializes
the template's fields with the issuer taken from the parent's subject, the
given public key, and X.509 version 3; the signature itself plays no role in
any studied property and is not modelled. -/
def createCertificate (template parent : Certificate) (pub : PublicKey) : Bytes :=
  certDER { template with issuer := parent.subject, publicKey := pub, version := 3 }

/-- `SelfSignedCertificate(cfg, key)`: build the template, reject an empty
CN or OU, compute the subject key identifier from the key's own public part,
create and re-parse the certificate. -/
def SelfSignedCertificate (cfg : CertCfg) (key : RSAPrivateKey) (now : Int)
    (serial : Nat) : Except GoErr Certificate :=
  let cert : Certificate :=
    { basicConstraintsValid := true
      isCA := cfg.isCA
      keyUsage := cfg.keyUsages
      notAfter := now + cfg.validity
      notBefore := now
      serialNumber := serial
      subject := cfg.subject
      dnsNames := []
      extKeyUsage := []
      ipAddresses := []
      version := 0
      subjectKeyId := []
      publicKey := .other 0
      issuer := ⟨[], [], []⟩ }
  if cfg.subject.commonName.length = 0 ∨ cfg.subject.organizationalUnit.length = 0 then
    .error .invalidSubject
  else
    match generateSubjectKeyID (.rsa key.n key.e) with
    | .error e => .error e
    | .ok skid =>
      parseCertificate (createCertificate { cert with subjectKeyId := skid } { cert with subjectKeyId := skid } (.rsa key.n key.e))

/-- `signedCertificate(cfg, csr, key, caCert, caKey)`: build the template
from CSR and config, `notBefore` inherited from the CA certificate; the
subject key identifier is computed from the **CA certificate's** public key
via an unchecked type assertion to `*rsa.PublicKey`, which panics for any
other key type. -/
def signedCertificate (cfg : CertCfg) (csr : CertificateRequest)
    (key : RSAPrivateKey) (caCert : Certificate) (_caKey : RSAPrivateKey)
    (now : Int) (serial : Nat) : GoResult Certificate :=
  let certTmpl : Certificate :=
    { dnsNames := csr.dnsNames
      extKeyUsage := cfg.extKeyUsages
      ipAddresses := csr.ipAddresses
      keyUsage := cfg.keyUsages
      notAfter := now + cfg.validity
      notBefore := caCert.notBefore
      serialNumber := serial
      subject := csr.subject
      isCA := cfg.isCA
      version := 3
      basicConstraintsValid := true
      subjectKeyId := []
      publicKey := .other 0
      issuer := ⟨[], [], []⟩ }
  match caCert.publicKey with
  | .rsa n e =>
    (match generateSubjectKeyID (.rsa n e) with
     | .error er => .err er
     | .ok skid =>
       match parseCertificate (createCertificate { certTmpl with subjectKeyId := skid } caCert (.rsa key.n key.e)) with
       | .ok c => .ok c
       | .error er => .err er)
  | _ => .panics

/-- `GenerateSelfSignedCertificate(cfg)`: the freshly generated RSA key is
passed explicitly (the source draws it from `crypto/rand`). -/
def GenerateSelfSignedCertificate (cfg : CertCfg) (key : RSAPrivateKey)
    (now : Int) (serial : Nat) : Except GoErr (RSAPrivateKey × Certificate) :=
  match SelfSignedCertificate cfg key now serial with
  | .error e => .error e
  | .ok crt => .ok (key, crt)

/-- `GenerateSignedCertificate(caKey, caCert, cfg)`: generate a key (passed
explicitly), build and round-trip a CSR from the config, then sign it. -/
def GenerateSignedCertificate (caKey : RSAPrivateKey) (caCert : Certificate)
    (cfg : CertCfg) (key : RSAPrivateKey) (now : Int) (serial : Nat) :
    GoResult (RSAPrivateKey × Certificate) :=
  let csrBytes := createCertificateRequest cfg.subject cfg.dnsNames cfg.ipAddresses key
  match parseCertificateRequest csrBytes with
  | .error e => .err e
  | .ok csr =>
    match signedCertificate cfg csr key caCert caKey now serial with
    | .ok cert => .ok (key, cert)
    | .err e => .err e
    | .panics => .panics

/-! ## Key-pair validation (`parsePemKeypair`, `ValidateKeyPair`) -/

/-- `parsePemKeypair`: decode both PEM inputs, require an RSA certificate
key, and require the certificate's modulus to equal the private key's. -/
def parsePemKeypair (key certificate : Bytes) :
    Except GoErr (RSAPrivateKey × Certificate) :=
  match PemToPrivateKey key with
  | .error e => .error e
  | .ok privKey =>
    match PemToCertificate certificate with
    | .error e => .error e
    | .ok cert =>
      match cert.publicKey with
      | .rsa n _ =>
        if n ≠ privKey.n then .error .keyCertificateMismatch
        else .ok (privKey, cert)
      | _ => .error .notRSAPublicKey

/-- The individual findings `ValidateKeyPair` can append (the source builds
`fmt.Errorf` values; they are modelled by which check produced them). -/
inductive FieldError where
  | dnsNames
  | extKeyUsages
  | ipAddresses
  | keyUsage
  | subject
  | remainingValidity
  | isCA
deriving DecidableEq, Repr

/-- `cmp.Diff` with `cmpopts.SortSlices` on the subject's string slices and
ignoring the `Names` cache: equality of CN and multiset equality of OU/O. -/
def subjectMatches (a b : PkixName) : Prop :=
  a.commonName = b.commonName ∧ a.organizationalUnit.Perm b.organizationalUnit ∧
    a.organization.Perm b.organization

instance (a b : PkixName) : Decidable (subjectMatches a b) := by
  unfold subjectMatches; infer_instance

/-- The findings of `ValidateKeyPair`, in source order.  `cmp.Diff` with
`cmpopts.SortSlices` under a strict total order compares the slices as
multisets, i.e. up to permutation; `time.Until(cert.NotAfter) <
minimumRemainingValidity` is `cert.notAfter - now < minimumRemainingValidity`. -/
def validationErrors (cert : Certificate) (cfg : CertCfg)
    (minimumRemainingValidity now : Int) : List FieldError :=
  (if ¬ cert.dnsNames.Perm cfg.dnsNames then [.dnsNames] else []) ++
  (if ¬ cert.extKeyUsage.Perm cfg.extKeyUsages then [.extKeyUsages] else []) ++
  (if ¬ cert.ipAddresses.Perm cfg.ipAddresses then [.ipAddresses] else []) ++
  (if cert.keyUsage ≠ cfg.keyUsages then [.keyUsage] else []) ++
  (if ¬ subjectMatches cert.subject cfg.subject then [.subject] else []) ++
  (if cert.notAfter - now < minimumRemainingValidity then [.remainingValidity] else []) ++
  (if cert.isCA ≠ cfg.isCA then [.isCA] else [])

/-- Error outcome of `ValidateKeyPair`: a wrapped parse failure, or the
non-empty aggregate of field findings (`utilerrors.NewAggregate`). -/
inductive ValidateErr where
  | parseFailure (e : GoErr)
  | aggregate (errs : List FieldError)
deriving DecidableEq, Repr

/-- `ValidateKeyPair`: parse the pair (fail fast), then collect every field
finding and aggregate; success iff no finding. -/
def ValidateKeyPair (pemKey pemCertificate : Bytes) (cfg : CertCfg)
    (minimumRemainingValidity now : Int) : Except ValidateErr Unit :=
  match parsePemKeypair pemKey pemCertificate with
  | .error e => .error (.parseFailure e)
  | .ok (_, cert) =>
    match validationErrors cert cfg minimumRemainingValidity now with
    | [] => .ok ()
    | errs => .error (.aggregate errs)

/-- The subset of the six config-comparison fields on which certificate and
config actually differ (remaining validity excluded), in source order. -/
def differingTags (cert : Certificate) (cfg : CertCfg) : List FieldError :=
  (if ¬ cert.dnsNames.Perm cfg.dnsNames then [.dnsNames] else []) ++
  (if ¬ cert.extKeyUsage.Perm cfg.extKeyUsages then [.extKeyUsages] else []) ++
  (if ¬ cert.ipAddresses.Perm cfg.ipAddresses then [.ipAddresses] else []) ++
  (if cert.keyUsage ≠ cfg.keyUsages then [.keyUsage] else []) ++
  (if ¬ subjectMatches cert.subject cfg.subject then [.subject] else []) ++
  (if cert.isCA ≠ cfg.isCA then [.isCA] else [])

theorem differingTags_sublist (cert : Certificate) (cfg : CertCfg)
    (minimumRemainingValidity now : Int) :
    (differingTags cert cfg).Sublist
      (validationErrors cert cfg minimumRemainingValidity now) := by
  simp only [differingTags, validationErrors, List.append_assoc]
  exact List.Sublist.append_left (List.Sublist.append_left
    (List.Sublist.append_left (List.Sublist.append_left
      (List.Sublist.append_left (List.sublist_append_right _ _) _) _) _) _) _

theorem validationErrors_nodup (cert : Certificate) (cfg : CertCfg)
    (minimumRemainingValidity now : Int) :
    (validationErrors cert cfg minimumRemainingValidity now).Nodup := by
  unfold validationErrors
  split_ifs <;> decide

end Certs

deriving instance DecidableEq for Except

namespace Certs

/-! ## Extraction lemmas: the explicit shape of generated certificates -/

/-- The certificate record `SelfSignedCertificate` produces on success. -/
def selfSignedShape (cfg : CertCfg) (key : RSAPrivateKey) (now : Int)
    (serial : Nat) : Certificate :=
  { basicConstraintsValid := true
    isCA := cfg.isCA
    keyUsage := cfg.keyUsages
    notAfter := now + cfg.validity
    notBefore := now
    serialNumber := serial
    subject := cfg.subject
    dnsNames := []
    extKeyUsage := []
    ipAddresses := []
    version := 3
    subjectKeyId := sha1Sum (asn1MarshalRSAPublicKey key.n key.e)
    publicKey := .rsa key.n key.e
    issuer := cfg.subject }

theorem SelfSignedCertificate_ok {cfg : CertCfg} {key : RSAPrivateKey}
    {now : Int} {serial : Nat} {cert : Certificate}
    (h : SelfSignedCertificate cfg key now serial = .ok cert) :
    cert = selfSignedShape cfg key now serial := by
  rw [SelfSignedCertificate] at h
  split at h
  · exact absurd h (by simp)
  · simp only [generateSubjectKeyID, createCertificate] at h
    rw [parseCertificate_certDER] at h
    cases h
    rfl

/-- The certificate record `signedCertificate` produces on success, given
the CA certificate's RSA public key components. -/
def signedShape (cfg : CertCfg) (csr : CertificateRequest) (key : RSAPrivateKey)
    (caCert : Certificate) (now : Int) (serial : Nat) (n e : Nat) : Certificate :=
  { dnsNames := csr.dnsNames
    extKeyUsage := cfg.extKeyUsages
    ipAddresses := csr.ipAddresses
    keyUsage := cfg.keyUsages
    notAfter := now + cfg.validity
    notBefore := caCert.notBefore
    serialNumber := serial
    subject := csr.subject
    isCA := cfg.isCA
    version := 3
    basicConstraintsValid := true
    subjectKeyId := sha1Sum (asn1MarshalRSAPublicKey n e)
    publicKey := .rsa key.n key.e
    issuer := caCert.subject }

theorem signedCertificate_ok {cfg : CertCfg} {csr : CertificateRequest}
    {key : RSAPrivateKey} {caCert : Certificate} {caKey : RSAPrivateKey}
    {now : Int} {serial : Nat} {cert : Certificate}
    (h : signedCertificate cfg csr key caCert caKey now serial = .ok cert) :
    ∃ n e, caCert.publicKey = .rsa n e ∧
      cert = signedShape cfg csr key caCert now serial n e := by
  rw [signedCertificate] at h
  cases hpk : caCert.publicKey with
  | rsa n e =>
    rw [hpk] at h
    simp only [generateSubjectKeyID, createCertificate] at h
    rw [parseCertificate_certDER] at h
    cases h
    exact ⟨n, e, rfl, rfl⟩
  | ecdsa c x y => rw [hpk] at h; exact absurd h (by simp)
  | other t => rw [hpk] at h; exact absurd h (by simp)

theorem GenerateSignedCertificate_ok {caKey : RSAPrivateKey} {caCert : Certificate}
    {cfg : CertCfg} {key : RSAPrivateKey} {now : Int} {serial : Nat}
    {out : RSAPrivateKey × Certificate}
    (h : GenerateSignedCertificate caKey caCert cfg key now serial = .ok out) :
    ∃ n e, caCert.publicKey = .rsa n e ∧
      out = (key, signedShape cfg ⟨cfg.subject, cfg.dnsNames, cfg.ipAddresses, .rsa key.n key.e⟩
        key caCert now serial n e) := by
  rw [GenerateSignedCertificate, createCertificateRequest,
    parseCertificateRequest_csrDER] at h
  have h' : (match signedCertificate cfg ⟨cfg.subject, cfg.dnsNames,
      cfg.ipAddresses, .rsa key.n key.e⟩ key caCert caKey now serial with
    | GoResult.ok cert => GoResult.ok (key, cert)
    | GoResult.err e => GoResult.err e
    | GoResult.panics => (GoResult.panics : GoResult (RSAPrivateKey × Certificate))) =
      GoResult.ok out := h
  cases hs : signedCertificate cfg ⟨cfg.subject, cfg.dnsNames, cfg.ipAddresses,
      .rsa key.n key.e⟩ key caCert caKey now serial with
  | ok cert =>
    rw [hs] at h'
    obtain ⟨n, e, hpk, hcert⟩ := signedCertificate_ok hs
    cases h'
    exact ⟨n, e, hpk, by rw [hcert]⟩
  | err e => rw [hs] at h'; exact absurd h' (by simp)
  | panics => rw [hs] at h'; exact absurd h' (by simp)

theorem GenerateSelfSignedCertificate_ok {cfg : CertCfg} {key : RSAPrivateKey}
    {now : Int} {serial : Nat} {out : RSAPrivateKey × Certificate}
    (h : GenerateSelfSignedCertificate cfg key now serial = .ok out) :
    out = (key, selfSignedShape cfg key now serial) := by
  rw [GenerateSelfSignedCertificate] at h
  cases hs : SelfSignedCertificate cfg key now serial with
  | ok crt =>
    rw [hs] at h
    cases h
    rw [SelfSignedCertificate_ok hs]
  | error e => rw [hs] at h; exact absurd h (by simp)

theorem subjectMatches_refl (a : PkixName) : subjectMatches a a :=
  ⟨rfl, List.Perm.refl _, List.Perm.refl _⟩

theorem parsePemKeypair_roundtrip (key : RSAPrivateKey) (cert : Certificate)
    (e : Nat) (hpq : key.p * key.q = key.n)
    (hkb : ∀ b ∈ marshalPKCS1PrivateKey key, b < 256)
    (hcb : ∀ b ∈ certDER cert, b < 256)
    (hpk : cert.publicKey = .rsa key.n e) :
    parsePemKeypair (PrivateKeyToPem key) (CertToPem cert) = .ok (key, cert) := by
  rw [parsePemKeypair, PemToPrivateKey_PrivateKeyToPem key hpq hkb,
    PemToCertificate_CertToPem cert hcb]
  simp [hpk]

theorem ValidateKeyPair_ok_of {pemKey pemCert : Bytes} {cfg : CertCfg}
    {minimumRemainingValidity now : Int} {k : RSAPrivateKey} {cert : Certificate}
    (hparse : parsePemKeypair pemKey pemCert = .ok (k, cert))
    (hv : validationErrors cert cfg minimumRemainingValidity now = []) :
    ValidateKeyPair pemKey pemCert cfg minimumRemainingValidity now = .ok () := by
  rw [ValidateKeyPair, hparse]
  simp [hv]

theorem mem_if_singleton {α : Type} {c : Prop} [Decidable c] {x y : α} :
    (y ∈ if c then [x] else []) ↔ c ∧ y = x := by
  split <;> simp_all

theorem remainingValidity_mem_validationErrors (cert : Certificate)
    (cfg : CertCfg) (minimumRemainingValidity now : Int) :
    FieldError.remainingValidity ∈
        validationErrors cert cfg minimumRemainingValidity now ↔
      cert.notAfter - now < minimumRemainingValidity := by
  simp [validationErrors, List.mem_append, mem_if_singleton]

/-! ## Concrete fixtures used by witnesses and counterexamples -/

/-- A small RSA key: n = 61 · 53 = 3233, e = 17, d = 413. -/
def key0 : RSAPrivateKey := ⟨3233, 17, 413, 61, 53⟩

/-- A second, distinct RSA key: n = 47 · 61 = 2867. -/
def key1 : RSAPrivateKey := ⟨2867, 5, 2237, 47, 61⟩

/-- Subject with CN "t" and OU ["u"]. -/
def subj0 : PkixName := ⟨[116], [[117]], []⟩

/-- Config with empty DNS/IP/EKU lists. -/
def cfgZ : CertCfg := ⟨[], [], [], 5, subj0, 1000, true⟩

/-- The same config with one DNS name ("a"). -/
def cfgD : CertCfg := ⟨[[97]], [], [], 5, subj0, 1000, true⟩

/-- Config differing from a `cfgZ` certificate in key usage and IsCA. -/
def cfgW : CertCfg := ⟨[], [], [], 9, subj0, 1000, false⟩

/-- The self-signed certificate generated from `cfgZ` and `key0`. -/
def certZ : Certificate := selfSignedShape cfgZ key0 0 1

/-- A CSR naming `key1` as subject key. -/
def csr0 : CertificateRequest := ⟨subj0, [[97]], [], .rsa key1.n key1.e⟩

/-- A CA certificate with an ECDSA public key. -/
def caCertE : Certificate := { certZ with publicKey := .ecdsa 1 2 3 }

/-- The CA-signed certificate issued from `cfgD`/`csr0` under `certZ`'s key. -/
def certS : Certificate := signedShape cfgD csr0 key1 certZ 0 2 3233 17

/-- The self-signed certificate generated from `cfgD` (non-empty DNS names). -/
def certD : Certificate := selfSignedShape cfgD key0 0 1

/-! ## The claims -/

/-- C2: every certificate returned by `SelfSignedCertificate` has no DNS
subject-alternative names, no IP subject-alternative names, and no extended
key usages, whatever the config's `DNSNames`, `IPAddresses`, `ExtKeyUsages`
hold; only the CA-signed path (`signedCertificate`) copies these fields into
the certificate (DNS/IP from the CSR, extended key usages from the config). -/
theorem C2_self_signed_no_san_no_eku :
    (∀ (cfg : CertCfg) (key : RSAPrivateKey) (now : Int) (serial : Nat)
        (cert : Certificate),
      SelfSignedCertificate cfg key now serial = .ok cert →
        cert.dnsNames = [] ∧ cert.ipAddresses = [] ∧ cert.extKeyUsage = []) ∧
    (∀ (cfg : CertCfg) (csr : CertificateRequest) (key caKey : RSAPrivateKey)
        (caCert : Certificate) (now : Int) (serial : Nat) (cert : Certificate),
      signedCertificate cfg csr key caCert caKey now serial = .ok cert →
        cert.dnsNames = csr.dnsNames ∧ cert.ipAddresses = csr.ipAddresses ∧
          cert.extKeyUsage = cfg.extKeyUsages) := by
  constructor
  · intro cfg key now serial cert h
    rw [SelfSignedCertificate_ok h]
    exact ⟨rfl, rfl, rfl⟩
  · intro cfg csr key caKey caCert now serial cert h
    obtain ⟨n, e, _, hc⟩ := signedCertificate_ok h
    rw [hc]
    exact ⟨rfl, rfl, rfl⟩

set_option maxRecDepth 1000000 in
/-- Witness for C2 at the concrete fixtures: the self-signed certificate from
a config with a DNS name carries none, while the CA-signed certificate
carries the CSR's DNS name. -/
theorem C2_self_signed_no_san_no_eku_witness :
    (certD.dnsNames = [] ∧ certD.ipAddresses = [] ∧ certD.extKeyUsage = []) ∧
    (certS.dnsNames = csr0.dnsNames ∧ certS.ipAddresses = csr0.ipAddresses ∧
      certS.extKeyUsage = cfgD.extKeyUsages) :=
  ⟨C2_self_signed_no_san_no_eku.1 cfgD key0 0 1 certD (by decide),
   C2_self_signed_no_san_no_eku.2 cfgD csr0 key1 key0 certZ 0 2 certS (by decide)⟩

/-- C3: in CA-signed issuance the certificate's subject key identifier is
the 20-byte SHA-1 digest of the ASN.1 encoding of the **CA certificate's**
RSA public key, and differs from the digest of the leaf subject's own key
whenever those digests differ. -/
theorem C3_ski_from_ca_key :
    ∀ (cfg : CertCfg) (csr : CertificateRequest) (key caKey : RSAPrivateKey)
      (caCert : Certificate) (now : Int) (serial : Nat) (cert : Certificate)
      (n e : Nat),
      caCert.publicKey = .rsa n e →
      signedCertificate cfg csr key caCert caKey now serial = .ok cert →
      cert.subjectKeyId = sha1Sum (asn1MarshalRSAPublicKey n e) ∧
      cert.subjectKeyId.length = 20 ∧
      (sha1Sum (asn1MarshalRSAPublicKey n e) ≠
          sha1Sum (asn1MarshalRSAPublicKey key.n key.e) →
        cert.subjectKeyId ≠ sha1Sum (asn1MarshalRSAPublicKey key.n key.e)) := by
  intro cfg csr key caKey caCert now serial cert n e hpk h
  obtain ⟨n', e', hpk', hc⟩ := signedCertificate_ok h
  rw [hpk] at hpk'
  cases hpk'
  refine ⟨by rw [hc]; rfl, ?_, fun hne => by rw [hc]; rw [show (signedShape cfg csr key caCert now serial n e).subjectKeyId = sha1Sum (asn1MarshalRSAPublicKey n e) from rfl]; exact hne⟩
  rw [hc, show (signedShape cfg csr key caCert now serial n e).subjectKeyId = sha1Sum (asn1MarshalRSAPublicKey n e) from rfl]
  exact sha1Sum_length _

set_option maxRecDepth 1000000 in
/-- Witness for C3: the issued certificate's SKI is the digest of the CA
key `(3233, 17)`, not of the leaf key `(2867, 5)`. -/
theorem C3_ski_from_ca_key_witness :
    certS.subjectKeyId = sha1Sum (asn1MarshalRSAPublicKey 3233 17) ∧
    certS.subjectKeyId.length = 20 ∧
    (sha1Sum (asn1MarshalRSAPublicKey 3233 17) ≠
        sha1Sum (asn1MarshalRSAPublicKey key1.n key1.e) →
      certS.subjectKeyId ≠ sha1Sum (asn1MarshalRSAPublicKey key1.n key1.e)) :=
  C3_ski_from_ca_key cfgD csr0 key1 key0 certZ 0 2 certS 3233 17 (by decide) (by decide)

/-- C4: a CA-signed certificate's `notBefore` equals the signing CA
certificate's `notBefore`, regardless of the wall-clock `now` at issuance,
while `notAfter` is `now` plus the config's validity. -/
theorem C4_notbefore_inherited :
    ∀ (cfg : CertCfg) (csr : CertificateRequest) (key caKey : RSAPrivateKey)
      (caCert : Certificate) (now : Int) (serial : Nat) (cert : Certificate),
      signedCertificate cfg csr key caCert caKey now serial = .ok cert →
      cert.notBefore = caCert.notBefore ∧ cert.notAfter = now + cfg.validity := by
  intro cfg csr key caKey caCert now serial cert h
  obtain ⟨n, e, _, hc⟩ := signedCertificate_ok h
  rw [hc]
  exact ⟨rfl, rfl⟩

set_option maxRecDepth 1000000 in
/-- Witness for C4 at a wall-clock time (`now = 7`) different from the CA
certificate's `notBefore` (0). -/
theorem C4_notbefore_inherited_witness :
    (signedShape cfgD csr0 key1 certZ 7 2 3233 17).notBefore = certZ.notBefore ∧
    (signedShape cfgD csr0 key1 certZ 7 2 3233 17).notAfter = 7 + cfgD.validity :=
  C4_notbefore_inherited cfgD csr0 key1 key0 certZ 7 2 _ (by decide)

/-- C7: when the config's subject has an empty common name or an empty
organizational-unit list, `SelfSignedCertificate` fails with the
invalid-subject error and returns no certificate. -/
theorem C7_invalid_subject :
    ∀ (cfg : CertCfg) (key : RSAPrivateKey) (now : Int) (serial : Nat),
      cfg.subject.commonName = [] ∨ cfg.subject.organizationalUnit = [] →
      SelfSignedCertificate cfg key now serial = .error .invalidSubject := by
  intro cfg key now serial h
  have hc : cfg.subject.commonName.length = 0 ∨
      cfg.subject.organizationalUnit.length = 0 := by
    rcases h with h | h
    · exact Or.inl (by simp [h])
    · exact Or.inr (by simp [h])
  rw [SelfSignedCertificate, if_pos hc]

/-- Witness for C7: a config whose subject has a CN but no OU is rejected. -/
theorem C7_invalid_subject_witness :
    SelfSignedCertificate ⟨[], [], [], 5, ⟨[116], [], []⟩, 1000, true⟩ key0 0 1 =
      .error .invalidSubject :=
  C7_invalid_subject _ key0 0 1 (Or.inr rfl)

/-- C9: the PEM encoders are total: `PublicKeyToPem` always returns `ok`
(the only error path would be a PKIX-marshal failure, impossible for an RSA
key), and the other three encoders return a (non-empty) armored block
unconditionally, having no error channel at all. -/
theorem C9_encoders_total :
    ∀ (key : RSAPrivateKey) (cert : Certificate) (csr : CertificateRequest)
      (n e : Nat),
      PublicKeyToPem n e =
        .ok (pemEncode typeRSAPublicKey (marshalPKIXPublicKey n e)) ∧
      PrivateKeyToPem key ≠ [] ∧ CertToPem cert ≠ [] ∧ CSRToPem csr ≠ [] := by
  intro key cert csr n e
  refine ⟨rfl, ?_, ?_, ?_⟩ <;>
    simp [PrivateKeyToPem, CertToPem, CSRToPem, pemEncode, pemBeginTag]

/-- C10: `signedCertificate` type-asserts the CA certificate's public key to
`*rsa.PublicKey` without a check: for every CA certificate carrying a
non-RSA public key the CA-signed issuance path panics instead of returning
an error. -/
theorem C10_non_rsa_ca_panics :
    ∀ (cfg : CertCfg) (csr : CertificateRequest) (key caKey : RSAPrivateKey)
      (caCert : Certificate) (now : Int) (serial : Nat),
      (∀ n e, caCert.publicKey ≠ .rsa n e) →
      signedCertificate cfg csr key caCert caKey now serial = .panics := by
  intro cfg csr key caKey caCert now serial h
  cases hpk : caCert.publicKey with
  | rsa n e => exact absurd hpk (h n e)
  | ecdsa c x y => simp [signedCertificate, hpk]
  | other t => simp [signedCertificate, hpk]

/-- Witness for C10: an ECDSA CA key makes issuance panic. -/
theorem C10_non_rsa_ca_panics_witness :
    signedCertificate cfgD csr0 key1 caCertE key0 0 2 = .panics :=
  C10_non_rsa_ca_panics cfgD csr0 key1 key0 caCertE 0 2
    (fun n e h => by simp [caCertE, certZ, selfSignedShape] at h)

theorem ValidateKeyPair_aggregate_iff {pemKey pemCert : Bytes} {cfg : CertCfg}
    {minimumRemainingValidity now : Int} {k : RSAPrivateKey} {cert : Certificate}
    (hparse : parsePemKeypair pemKey pemCert = .ok (k, cert)) (errs : List FieldError) :
    ValidateKeyPair pemKey pemCert cfg minimumRemainingValidity now =
        .error (.aggregate errs) ↔
      errs = validationErrors cert cfg minimumRemainingValidity now ∧ errs ≠ [] := by
  rw [ValidateKeyPair, hparse]
  show (match validationErrors cert cfg minimumRemainingValidity now with
    | [] => (Except.ok () : Except ValidateErr Unit)
    | errs => Except.error (ValidateErr.aggregate errs)) =
      Except.error (ValidateErr.aggregate errs) ↔ _
  cases hval : validationErrors cert cfg minimumRemainingValidity now with
  | nil =>
    simp
  | cons a l =>
    show Except.error (ValidateErr.aggregate (a :: l)) =
        Except.error (ValidateErr.aggregate errs) ↔ _
    constructor
    · intro h
      injection h with h
      injection h with h
      exact ⟨h.symm, by rw [← h]; simp⟩
    · rintro ⟨h, -⟩
      rw [h]

/-- C5: with a well-formed, corresponding pair, `ValidateKeyPair` aggregates
at least one distinct complaint per differing field among {DNS names,
extended key usages, IP addresses, key usage, subject, IsCA} — no truncation
to the first failure — while an RSA modulus mismatch between key and
certificate yields only the key-certificate-mismatch error, with no field
findings. -/
theorem C5_collect_all_and_mismatch :
    (∀ (pemKey pemCert : Bytes) (cfg : CertCfg) (minimumRemainingValidity now : Int)
        (k : RSAPrivateKey) (cert : Certificate),
      parsePemKeypair pemKey pemCert = .ok (k, cert) →
      differingTags cert cfg ≠ [] →
      ∃ errs, ValidateKeyPair pemKey pemCert cfg minimumRemainingValidity now =
          .error (.aggregate errs) ∧
        (differingTags cert cfg).Sublist errs ∧ errs.Nodup) ∧
    (∀ (pemKey pemCert : Bytes) (cfg : CertCfg) (minimumRemainingValidity now : Int)
        (privKey : RSAPrivateKey) (cert : Certificate) (n e : Nat),
      PemToPrivateKey pemKey = .ok privKey →
      PemToCertificate pemCert = .ok cert →
      cert.publicKey = .rsa n e →
      n ≠ privKey.n →
      ValidateKeyPair pemKey pemCert cfg minimumRemainingValidity now =
        .error (.parseFailure .keyCertificateMismatch)) := by
  constructor
  · intro pemKey pemCert cfg minR now k cert hparse hne
    refine ⟨validationErrors cert cfg minR now,
      (ValidateKeyPair_aggregate_iff hparse _).mpr ⟨rfl, ?_⟩,
      differingTags_sublist cert cfg minR now, validationErrors_nodup cert cfg minR now⟩
    intro hnil
    have := differingTags_sublist cert cfg minR now
    rw [hnil] at this
    exact hne (List.sublist_nil.mp this)
  · intro pemKey pemCert cfg minR now privKey cert n e h1 h2 h3 h4
    have hp : parsePemKeypair pemKey pemCert = .error .keyCertificateMismatch := by
      rw [parsePemKeypair, h1, h2]
      simp [h3, h4]
    rw [ValidateKeyPair, hp]

set_option maxRecDepth 1000000 in
/-- Witness for C5: the fixture certificate checked against a config
differing in key usage and IsCA yields both findings; the fixture pair with
mismatched moduli yields exactly the mismatch error. -/
theorem C5_collect_all_and_mismatch_witness :
    (∃ errs, ValidateKeyPair (PrivateKeyToPem key0) (CertToPem certZ) cfgW 0 0 =
        .error (.aggregate errs) ∧
      (differingTags certZ cfgW).Sublist errs ∧ errs.Nodup) ∧
    ValidateKeyPair (PrivateKeyToPem key1) (CertToPem certZ) cfgW 0 0 =
      .error (.parseFailure .keyCertificateMismatch) :=
  ⟨C5_collect_all_and_mismatch.1 (PrivateKeyToPem key0) (CertToPem certZ) cfgW 0 0
      key0 certZ (by decide) (by decide),
   C5_collect_all_and_mismatch.2 (PrivateKeyToPem key1) (CertToPem certZ) cfgW 0 0
      key1 certZ 3233 17 (by decide) (by decide) (by decide) (by decide)⟩

/-- C6: `ValidateKeyPair` records a remaining-validity finding exactly when
`now > notAfter - minimumRemainingValidity`; at the boundary
`now = notAfter - minimumRemainingValidity` the check passes. -/
theorem C6_remaining_validity_boundary :
    ∀ (pemKey pemCert : Bytes) (cfg : CertCfg) (minimumRemainingValidity now : Int)
      (k : RSAPrivateKey) (cert : Certificate),
      parsePemKeypair pemKey pemCert = .ok (k, cert) →
      ((∃ errs, ValidateKeyPair pemKey pemCert cfg minimumRemainingValidity now =
          .error (.aggregate errs) ∧ FieldError.remainingValidity ∈ errs) ↔
        cert.notAfter - minimumRemainingValidity < now) ∧
      (now = cert.notAfter - minimumRemainingValidity →
        ∀ errs, ValidateKeyPair pemKey pemCert cfg minimumRemainingValidity now =
          .error (.aggregate errs) → FieldError.remainingValidity ∉ errs) := by
  intro pemKey pemCert cfg minR now k cert hparse
  constructor
  · constructor
    · rintro ⟨errs, hv, hm⟩
      obtain ⟨herrs, -⟩ := (ValidateKeyPair_aggregate_iff hparse errs).mp hv
      rw [herrs] at hm
      have := (remainingValidity_mem_validationErrors cert cfg minR now).mp hm
      omega
    · intro hlt
      have hm : FieldError.remainingValidity ∈ validationErrors cert cfg minR now :=
        (remainingValidity_mem_validationErrors cert cfg minR now).mpr (by omega)
      exact ⟨validationErrors cert cfg minR now,
        (ValidateKeyPair_aggregate_iff hparse _).mpr ⟨rfl, List.ne_nil_of_mem hm⟩, hm⟩
  · intro hbound errs hv hm
    obtain ⟨herrs, -⟩ := (ValidateKeyPair_aggregate_iff hparse errs).mp hv
    rw [herrs] at hm
    have := (remainingValidity_mem_validationErrors cert cfg minR now).mp hm
    omega

set_option maxRecDepth 1000000 in
/-- Witness for C6 at the fixture pair (`notAfter = 1000`): validating with
a minimum remaining validity of 300 at `now = 0` is before the cutoff. -/
theorem C6_remaining_validity_boundary_witness :
    ((∃ errs, ValidateKeyPair (PrivateKeyToPem key0) (CertToPem certZ) cfgZ 300 0 =
        .error (.aggregate errs) ∧ FieldError.remainingValidity ∈ errs) ↔
      certZ.notAfter - 300 < 0) ∧
    ((0 : Int) = certZ.notAfter - 300 →
      ∀ errs, ValidateKeyPair (PrivateKeyToPem key0) (CertToPem certZ) cfgZ 300 0 =
        .error (.aggregate errs) → FieldError.remainingValidity ∉ errs) :=
  C6_remaining_validity_boundary (PrivateKeyToPem key0) (CertToPem certZ) cfgZ 300 0
    key0 certZ (by decide)

/-- C8: PEM encode/decode is a lossless round trip for every byte-valued
(i.e. actually serializable) private key, certificate, and certificate
signing request: decoding the encoding returns the identical value. -/
theorem C8_pem_roundtrip :
    (∀ key : RSAPrivateKey, key.p * key.q = key.n →
      (∀ b ∈ marshalPKCS1PrivateKey key, b < 256) →
      PemToPrivateKey (PrivateKeyToPem key) = .ok key) ∧
    (∀ cert : Certificate, (∀ b ∈ certDER cert, b < 256) →
      PemToCertificate (CertToPem cert) = .ok cert) ∧
    (∀ csr : CertificateRequest, (∀ b ∈ csrDER csr, b < 256) →
      (pemDecode (CSRToPem csr)).map (fun p => parseCertificateRequest p.2) =
        some (.ok csr)) := by
  refine ⟨PemToPrivateKey_PrivateKeyToPem, PemToCertificate_CertToPem, ?_⟩
  intro csr hb
  rw [CSRToPem, pemDecode_pemEncode _ _ (by decide) hb]
  simp [parseCertificateRequest_csrDER]

set_option maxRecDepth 1000000 in
/-- Witness for C8 at the concrete fixtures. -/
theorem C8_pem_roundtrip_witness :
    PemToPrivateKey (PrivateKeyToPem key0) = .ok key0 ∧
    PemToCertificate (CertToPem certZ) = .ok certZ ∧
    (pemDecode (CSRToPem csr0)).map (fun p => parseCertificateRequest p.2) =
      some (.ok csr0) :=
  ⟨C8_pem_roundtrip.1 key0 (by decide) (by decide),
   C8_pem_roundtrip.2.1 certZ (by decide),
   C8_pem_roundtrip.2.2 csr0 (by decide)⟩

theorem validationErrors_eq_nil {cert : Certificate} {cfg : CertCfg}
    {minimumRemainingValidity now : Int}
    (h1 : cert.dnsNames.Perm cfg.dnsNames)
    (h2 : cert.extKeyUsage.Perm cfg.extKeyUsages)
    (h3 : cert.ipAddresses.Perm cfg.ipAddresses)
    (h4 : cert.keyUsage = cfg.keyUsages)
    (h5 : subjectMatches cert.subject cfg.subject)
    (h6 : minimumRemainingValidity ≤ cert.notAfter - now)
    (h7 : cert.isCA = cfg.isCA) :
    validationErrors cert cfg minimumRemainingValidity now = [] := by
  simp [validationErrors, h1, h2, h3, h4, h5, h7, not_lt.mpr h6]

set_option maxRecDepth 1000000 in
/-- C1, counterexample: from `cfgD` (non-empty CN "t", OU ["u"], minimum
remaining validity zero, but one DNS name "a") the self-sign path produces a
certificate, and `ValidateKeyPair` on the freshly generated pair fails with
a DNS-names finding rather than returning success — because the self-signed
certificate never carries the config's DNS names (see C2). -/
theorem C1_counterexample :
    (SelfSignedCertificate cfgD key0 0 1).map
      (fun cert => ValidateKeyPair (PrivateKeyToPem key0) (CertToPem cert) cfgD 0 0) =
    .ok (.error (.aggregate [.dnsNames])) := by
  decide

/-- C1, amended: a pair generated by `GenerateSelfSignedCertificate` or by
`GenerateSignedCertificate` validates with minimum remaining validity zero
at issuance time, provided the config's validity is nonnegative, the key
serializes to bytes, and — for the self-sign path only — the config's
`DNSNames`, `IPAddresses`, `ExtKeyUsages` are empty (a self-signed
certificate never carries them); the CA-signed path needs no such
restriction. -/
theorem C1_validate_generated_pair :
    (∀ (cfg : CertCfg) (key : RSAPrivateKey) (now : Int) (serial : Nat)
        (out : RSAPrivateKey × Certificate),
      GenerateSelfSignedCertificate cfg key now serial = .ok out →
      cfg.dnsNames = [] → cfg.ipAddresses = [] → cfg.extKeyUsages = [] →
      0 ≤ cfg.validity →
      key.p * key.q = key.n →
      (∀ b ∈ marshalPKCS1PrivateKey key, b < 256) →
      (∀ b ∈ certDER out.2, b < 256) →
      ValidateKeyPair (PrivateKeyToPem out.1) (CertToPem out.2) cfg 0 now = .ok ()) ∧
    (∀ (caKey : RSAPrivateKey) (caCert : Certificate) (cfg : CertCfg)
        (key : RSAPrivateKey) (now : Int) (serial : Nat)
        (out : RSAPrivateKey × Certificate),
      GenerateSignedCertificate caKey caCert cfg key now serial = .ok out →
      0 ≤ cfg.validity →
      key.p * key.q = key.n →
      (∀ b ∈ marshalPKCS1PrivateKey key, b < 256) →
      (∀ b ∈ certDER out.2, b < 256) →
      ValidateKeyPair (PrivateKeyToPem out.1) (CertToPem out.2) cfg 0 now = .ok ()) := by
  constructor
  · intro cfg key now serial out hgen hdns hip heku hval hpq hkb hcb
    obtain rfl := GenerateSelfSignedCertificate_ok hgen
    have hparse := parsePemKeypair_roundtrip key (selfSignedShape cfg key now serial)
      key.e hpq hkb hcb rfl
    refine ValidateKeyPair_ok_of hparse (validationErrors_eq_nil ?_ ?_ ?_ rfl
      (subjectMatches_refl _) ?_ rfl)
    · show List.Perm [] cfg.dnsNames
      rw [hdns]
    · show List.Perm [] cfg.extKeyUsages
      rw [heku]
    · show List.Perm [] cfg.ipAddresses
      rw [hip]
    · show (0 : Int) ≤ now + cfg.validity - now
      omega
  · intro caKey caCert cfg key now serial out hgen hval hpq hkb hcb
    obtain ⟨n, e, hpk, rfl⟩ := GenerateSignedCertificate_ok hgen
    have hparse := parsePemKeypair_roundtrip key
      (signedShape cfg ⟨cfg.subject, cfg.dnsNames, cfg.ipAddresses, .rsa key.n key.e⟩
        key caCert now serial n e) key.e hpq hkb hcb rfl
    refine ValidateKeyPair_ok_of hparse (validationErrors_eq_nil (List.Perm.refl _)
      (List.Perm.refl _) (List.Perm.refl _) rfl (subjectMatches_refl _) ?_ rfl)
    show (0 : Int) ≤ now + cfg.validity - now
    omega

set_option maxRecDepth 1000000 in
/-- Witness for the amended C1 at the concrete fixtures: both generated
pairs validate. -/
theorem C1_validate_generated_pair_witness :
    ValidateKeyPair (PrivateKeyToPem key0) (CertToPem certZ) cfgZ 0 0 = .ok () ∧
    ValidateKeyPair (PrivateKeyToPem key1) (CertToPem certS) cfgD 0 0 = .ok () :=
  ⟨C1_validate_generated_pair.1 cfgZ key0 0 1 (key0, certZ) (by decide) rfl rfl rfl
      (by decide) (by decide) (by decide) (by decide),
   C1_validate_generated_pair.2 key0 certZ cfgD key1 0 2 (key1, certS) (by decide)
      (by decide) (by decide) (by decide) (by decide)⟩

end Certs
